import Mathlib

/-!
Shallow embedding of `src/dialogue_system/language_understanding/attribute_extraction/extractor.py`
(HotPepperGourmetDialogue).  Python strings are modelled as `List Char`; Python
exceptions as `Except PyErr`.  The two classes `NamedEntityExtractor` and
`AttributeExtractor` become namespaces of executable definitions.
-/

set_option maxHeartbeats 1000000

/-- Coerce a Lean string literal to our `List Char` model of Python strings. -/
def str (s : String) : List Char := s.data

/-- Python exceptions raised by the modelled code paths.  `indexErrorSent` is the
`IndexError` from `sent[i]`, `indexErrorSplit` the `IndexError` from
`label.split('-')[1]`; `fileNotFound` is `FileNotFoundError`;
`valueErrorModelNotLoaded` is the `ValueError` pycrfsuite raises when tagging
with no model loaded. -/
inductive PyErr
  | fileNotFound
  | valueErrorModelNotLoaded
  | indexErrorSent
  | indexErrorSplit
deriving DecidableEq

/-- Python `s.startswith(c)` for a one-character prefix `c`. -/
def startsWithChar (c : Char) : List Char → Bool
  | [] => false
  | x :: _ => x = c

/-- Python `label.split('-')`: split on every occurrence of `'-'`. -/
def splitOnDash : List Char → List (List Char)
  | [] => [[]]
  | c :: cs =>
    if c = '-' then [] :: splitOnDash cs
    else
      match splitOnDash cs with
      | [] => [[c]]
      | p :: ps => (c :: p) :: ps

/-- Python `label.split('-')[1]`: the piece between the first and second `'-'`
(raising `IndexError` when the label contains no `'-'`). -/
def splitSnd (l : List Char) : Except PyErr (List Char) :=
  match (splitOnDash l).get? 1 with
  | some t => Except.ok t
  | none => Except.error PyErr.indexErrorSplit

/-- `[l.split('-')[1] for l in label_stack]`, propagating the first `IndexError`. -/
def mapSplitSnd : List (List Char) → Except PyErr (List (List Char))
  | [] => Except.ok []
  | l :: ls =>
    match splitSnd l with
    | Except.error e => Except.error e
    | Except.ok t =>
      match mapSplitSnd ls with
      | Except.error e => Except.error e
      | Except.ok ts => Except.ok (t :: ts)

namespace NamedEntityExtractor

/-- The inner `while i < len(pred_y) and pred_y[i].startswith('I')` loop of
`NamedEntityExtractor.extract` (lines 51-54 of extractor.py).  `pred` and `sent`
are the remaining suffixes of `pred_y` and `sent` from position `i` on.  Each
iteration OVERWRITES the stacks: `word_stack = [sent[i][0]]` and
`label_stack = [pred_y[i]]`.  Returns the number of consumed positions along
with the final stacks. -/
def innerRun {α : Type} (pred : List (List Char)) (sent : List (List Char × α))
    (word_stack label_stack : List (List Char)) :
    Except PyErr (Nat × List (List Char) × List (List Char)) :=
  match pred with
  | [] => Except.ok (0, word_stack, label_stack)
  | lab :: rest =>
    if startsWithChar 'I' lab then
      match sent with
      | [] => Except.error PyErr.indexErrorSent
      | tok :: sentRest =>
        match innerRun rest sentRest [tok.fst] [lab] with
        | Except.error e => Except.error e
        | Except.ok (k, ws, ls) => Except.ok (k + 1, ws, ls)
    else Except.ok (0, word_stack, label_stack)

/-- The outer `while i < len(pred_y)` loop of `NamedEntityExtractor.extract`
(lines 46-58 of extractor.py).  On a label starting with `'B'` it initialises
`word_stack = [sent[i][0]]`, `label_stack = [pred_y[i]]`, runs the inner loop,
computes `set([l.split('-')[1] for l in label_stack])` (modelled by `dedup`,
exact because the stack is a singleton) and appends
`[''.join(label_stack), ''.join(word_stack)]` to `res`; any other label just
advances `i` by one. -/
def outerRun {α : Type} (pred : List (List Char)) (sent : List (List Char × α))
    (res : List (List Char × List Char)) :
    Except PyErr (List (List Char × List Char)) :=
  match pred with
  | [] => Except.ok res
  | lab :: rest =>
    if startsWithChar 'B' lab then
      match sent with
      | [] => Except.error PyErr.indexErrorSent
      | tok :: sentRest =>
        match innerRun rest sentRest [tok.fst] [lab] with
        | Except.error e => Except.error e
        | Except.ok (k, word_stack, label_stack) =>
          match mapSplitSnd label_stack with
          | Except.error e => Except.error e
          | Except.ok ts =>
            outerRun (rest.drop k) (sentRest.drop k)
              (res ++ [(ts.dedup.flatten, word_stack.flatten)])
    else outerRun rest (sent.drop 1) res
termination_by pred.length
decreasing_by
  · simp
    omega
  · simp

/-- The span-merge algorithm of `NamedEntityExtractor.extract` applied to an
already predicted label sequence `pred_y` and the aligned token sequence
`sent` (each token a pair whose first component is its surface form). -/
def mergeSpans {α : Type} (pred_y : List (List Char)) (sent : List (List Char × α)) :
    Except PyErr (List (List Char × List Char)) :=
  outerRun pred_y sent []

end NamedEntityExtractor

/-- A feature bag for one token, opaque to this code (consumed only by the
external tagger). -/
def Feat : Type := List (List Char)

/-- A fitted CRF model, modelled extensionally as the per-token labelling
function it computes. -/
def CrfModel : Type := List Feat → List (List Char)

/-- Modelled from the spec: `pycrfsuite.Tagger`, the external CRF library
object (the library itself is not part of src/).  Its observable state at this
layer is whether a model is loaded, and which labelling function that model
computes. -/
structure PycrfTagger where
  model : Option CrfModel

/-- Modelled from the spec: `pycrfsuite.Tagger.open(path)` loads a persisted
model when the file exists and raises `FileNotFoundError` when it does not
(spec section 7: missing model file). -/
def PycrfTagger.openModel (fileExists : Bool) (onDisk : CrfModel) :
    Except PyErr PycrfTagger :=
  if fileExists then Except.ok { model := some onDisk }
  else Except.error PyErr.fileNotFound

/-- Modelled from the spec: `pycrfsuite.Tagger.tag(xseq)` returns the predicted
label sequence, and fails with a model-not-loaded error when no model has been
opened (spec sections 4.1 and 7). -/
def PycrfTagger.tag (t : PycrfTagger) (xseq : List Feat) :
    Except PyErr (List (List Char)) :=
  match t.model with
  | some m => Except.ok (m xseq)
  | none => Except.error PyErr.valueErrorModelNotLoaded

namespace NamedEntityExtractor

/-- The state of a `NamedEntityExtractor` object: its private tagger plus the
lines printed so far (the `print('Learn')` in the `except` branch). -/
structure State where
  tagger : PycrfTagger
  printed : List (List Char)

/-- `NamedEntityExtractor.__init__` (lines 17-23 of extractor.py): try to open
the model file; a `FileNotFoundError` is caught and `'Learn'` is printed; any
other exception would propagate. -/
def init (fileExists : Bool) (onDisk : CrfModel) : Except PyErr State :=
  match PycrfTagger.openModel fileExists onDisk with
  | Except.ok t => Except.ok { tagger := t, printed := [] }
  | Except.error PyErr.fileNotFound =>
    Except.ok { tagger := { model := none }, printed := [str "Learn"] }
  | Except.error e => Except.error e

/-- `NamedEntityExtractor.train` (lines 25-36): fit a model (the external
`pycrfsuite.Trainer` call is modelled by the fitted labelling function it
produces) and reload it into the tagger via `self.__tagger.open(save_file)`. -/
def train (s : State) (fitted : CrfModel) : State :=
  { s with tagger := { model := some fitted } }

/-- `NamedEntityExtractor.extract` (lines 38-60): tag `xseq`, then run the
span-merge loop over the predicted labels and `sent`. -/
def extract {α : Type} (s : State) (xseq : List Feat)
    (sent : List (List Char × α)) :
    Except PyErr (List (List Char × List Char)) :=
  match s.tagger.tag xseq with
  | Except.error e => Except.error e
  | Except.ok pred_y => mergeSpans pred_y sent

/-- Python `tag.split('-', 1)`: split at the first `'-'` only, returned as the
part before it and, when a `'-'` exists, the part after it. -/
def splitFirstDash : List Char → List Char × Option (List Char)
  | [] => ([], none)
  | c :: cs =>
    if c = '-' then ([], some cs)
    else
      let p := splitFirstDash cs
      (c :: p.fst, p.snd)

/-- The sort key `tag.split('-', 1)[::-1]` used in `evaluate` (line 71):
the reversed maxsplit-1 split of the label. -/
def sortKey (tag : List Char) : List (List Char) :=
  match splitFirstDash tag with
  | (b, none) => [b]
  | (b, some a) => [a, b]

/-- Python string comparison `s < t`: lexicographic on code points. -/
def listCharLt : List Char → List Char → Bool
  | [], [] => false
  | [], _ :: _ => true
  | _ :: _, [] => false
  | a :: as, b :: bs =>
    if a < b then true else if b < a then false else listCharLt as bs

/-- Python list comparison `k1 < k2` on sort keys: lexicographic over string
comparison. -/
def keyLt : List (List Char) → List (List Char) → Bool
  | [], [] => false
  | [], _ :: _ => true
  | _ :: _, [] => false
  | a :: as, b :: bs =>
    if listCharLt a b then true else if listCharLt b a then false else keyLt as bs

/-- The ordering used by `sorted(tagset, key=lambda tag: tag.split('-', 1)[::-1])`:
`a` comes no later than `b` when the key of `b` is not strictly below the key
of `a`. -/
def tagKeyLe (a b : List Char) : Prop := keyLt (sortKey b) (sortKey a) = false

instance : DecidableRel tagKeyLe := fun a b => by
  unfold tagKeyLe
  infer_instance

/-- The reported label list of `NamedEntityExtractor.evaluate` (lines 65-79):
`tagset = set(lb.classes_) - {'O'}` sorted by the reversed maxsplit-1 key.
`lb.classes_` is the vocabulary of the flattened gold labels (the binarizer is
fitted on `y_true`), modelled up to duplicate elimination by `dedup`; the
subsequent `set` subtraction and keyed sort make the result independent of the
enumeration order because the key is injective on labels. -/
def evaluateTagset (y_true : List (List (List Char))) : List (List Char) :=
  let classes := (y_true.flatten).dedup
  let tagset := classes.filter (fun t => !(t == str "O"))
  List.insertionSort tagKeyLe tagset

end NamedEntityExtractor

/-- The value of one attribute slot: a Python string or the integer produced by
the budget conversion. -/
inductive AttrVal
  | s (text : List Char)
  | i (n : Nat)
deriving DecidableEq

/-- Python substring test `needle in haystack`. -/
def containsSub (haystack needle : List Char) : Bool :=
  if needle.isPrefixOf haystack then true
  else
    match haystack with
    | [] => false
    | _ :: t => containsSub t needle

/-- The code points matched by the regex class `\d` in Python 3 on a `str`
pattern: every Unicode decimal digit (category Nd, here Unicode 14.0), as
inclusive code-point ranges.  Each range is a consecutive run of digits
0..9 (possibly several runs back to back), so the digit value of a code
point is its offset in its range modulo 10. -/
def pythonDigitRanges : List (Nat × Nat) :=
  [(48, 57), (1632, 1641), (1776, 1785), (1984, 1993), (2406, 2415),
   (2534, 2543), (2662, 2671), (2790, 2799), (2918, 2927), (3046, 3055),
   (3174, 3183), (3302, 3311), (3430, 3439), (3558, 3567), (3664, 3673),
   (3792, 3801), (3872, 3881), (4160, 4169), (4240, 4249), (6112, 6121),
   (6160, 6169), (6470, 6479), (6608, 6617), (6784, 6793), (6800, 6809),
   (6992, 7001), (7088, 7097), (7232, 7241), (7248, 7257), (42528, 42537),
   (43216, 43225), (43264, 43273), (43472, 43481), (43504, 43513),
   (43600, 43609), (44016, 44025), (65296, 65305), (66720, 66729),
   (68912, 68921), (69734, 69743), (69872, 69881), (69942, 69951),
   (70096, 70105), (70384, 70393), (70736, 70745), (70864, 70873),
   (71248, 71257), (71360, 71369), (71472, 71481), (71904, 71913),
   (72016, 72025), (72784, 72793), (73040, 73049), (73120, 73129),
   (92768, 92777), (92864, 92873), (93008, 93017), (120782, 120831),
   (123200, 123209), (123632, 123641), (125264, 125273), (130032, 130041)]

/-- The decimal value of a Unicode decimal digit, `none` for any other
character. -/
def pyDigitVal (c : Char) : Option Nat :=
  (pythonDigitRanges.find? (fun r => decide (r.fst ≤ c.toNat ∧ c.toNat ≤ r.snd))).map
    (fun r => (c.toNat - r.fst) % 10)

/-- Python `\d` on a `str` pattern (no `re.ASCII`): membership in the Unicode
decimal-digit category, e.g. the full-width digits `５０９` match alongside
ASCII `0`-`9`. -/
def isPyDigit (c : Char) : Bool := (pyDigitVal c).isSome

/-- Modelled from the spec: `kansuji2arabic` digit values — the numeral-
conversion utility `dialogue_system/language_understanding/utils/utils.py` is
not under src/, so it is modelled from spec sections 4.2, 6 and 8. -/
def kanjiDigit : Char → Option Nat
  | '〇' => some 0
  | '一' => some 1
  | '壱' => some 1
  | '二' => some 2
  | '弐' => some 2
  | '三' => some 3
  | '参' => some 3
  | '四' => some 4
  | '五' => some 5
  | '六' => some 6
  | '七' => some 7
  | '八' => some 8
  | '九' => some 9
  | c => pyDigitVal c

/-- Modelled from the spec: small positional multipliers of the traditional
numeral system. -/
def kanjiSmallUnit : Char → Option Nat
  | '十' => some 10
  | '拾' => some 10
  | '百' => some 100
  | '千' => some 1000
  | _ => none

/-- Modelled from the spec: myriad multipliers of the traditional numeral
system. -/
def kanjiBigUnit : Char → Option Nat
  | '万' => some 10000
  | '萬' => some 10000
  | '億' => some 100000000
  | '兆' => some 1000000000000
  | _ => none

/-- Modelled from the spec: accumulate a numeral string into an integer
(running total over myriad groups, current group, current digit run). -/
def kanjiAccum : List Char → Nat → Nat → Nat → Nat
  | [], total, section_, digit => total + section_ + digit
  | c :: cs, total, section_, digit =>
    match kanjiDigit c with
    | some d => kanjiAccum cs total section_ (digit * 10 + d)
    | none =>
      match kanjiSmallUnit c with
      | some u =>
        kanjiAccum cs total (section_ + (if digit = 0 then 1 else digit) * u) 0
      | none =>
        match kanjiBigUnit c with
        | some u => kanjiAccum cs ((total + section_ + digit) * u) 0 0
        | none => kanjiAccum cs total section_ digit

/-- Modelled from the spec: `kansuji2arabic(budget_str)` from
`dialogue_system/language_understanding/utils/utils.py` (not under src/).
Per spec sections 4.2, 6 and 7 it converts a numeral string to an integer and,
on the empty string produced when the budget regex has no match, it reports
absence as the empty string (never zero and never an error). -/
def kansuji2arabic (s : List Char) : AttrVal :=
  if s = [] then AttrVal.s [] else AttrVal.i (kanjiAccum s 0 0 0)

/-- The traditional numeral glyph class of the budget regex
`[一二三四五六七八九十壱弐参拾百千万萬億兆〇]`. -/
def kanjiNumeralClass : List Char :=
  ['一', '二', '三', '四', '五', '六', '七', '八', '九', '十',
   '壱', '弐', '参', '拾', '百', '千', '万', '萬', '億', '兆', '〇']

/-- Membership in the numeral glyph class. -/
def isKanjiNumeral (c : Char) : Bool := kanjiNumeralClass.contains c

/-- Try the regex alternation `\d+円|[…]+円` anchored at the start of `cs`:
a maximal nonempty run of Unicode decimal digits followed by `'円'`, or else a
maximal nonempty run of traditional numeral glyphs followed by `'円'`.
(Greedy matching without backtracking is exact here because `'円'` belongs to
neither character class.) -/
def budgetMatchAt (cs : List Char) : Option (List Char) :=
  let digits := cs.takeWhile isPyDigit
  let restd := cs.dropWhile isPyDigit
  if digits ≠ [] ∧ restd.head? = some '円' then some (digits ++ ['円'])
  else
    let kanji := cs.takeWhile isKanjiNumeral
    let restk := cs.dropWhile isKanjiNumeral
    if kanji ≠ [] ∧ restk.head? = some '円' then some (kanji ++ ['円'])
    else none

/-- The first match of the budget regex in `text`, scanning positions left to
right (the `[0]` of `re.findall(pattern, text)`, line 110-111). -/
def firstBudgetMatch : List Char → Option (List Char)
  | [] => none
  | c :: cs =>
    match budgetMatchAt (c :: cs) with
    | some m => some m
    | none => firstBudgetMatch cs

namespace AttributeExtractor

/-- `AttributeExtractor.__extract_location` (lines 94-99): keep the dictionary
entries occurring in `text`, sort them by length descending (Python
`list.sort(key=len, reverse=True)` is stable, modelled by the stable
`insertionSort`), and return the first, or `''` when none match. -/
def extract_location (locations : List (List Char)) (text : List Char) :
    List Char :=
  let matched := locations.filter (fun loc => containsSub text loc)
  match List.insertionSort (fun a b => b.length ≤ a.length) matched with
  | [] => []
  | l :: _ => l

/-- `AttributeExtractor.__extract_genre` (lines 101-106): iterate the genre
mapping in declaration order; inside a genre, return it as soon as one of its
food items occurs in `text`; `''` when nothing matches. -/
def extract_genre (genres : List (List Char × List (List Char)))
    (text : List Char) : List Char :=
  match genres with
  | [] => []
  | (food_genre, foods) :: rest =>
    if foods.any (fun food => containsSub text food) then food_genre
    else extract_genre rest text

/-- `AttributeExtractor.__extract_budget` (lines 108-114): take the first regex
match if any, strip the trailing `'円'`, and hand the remaining numeral string
(possibly empty) to `kansuji2arabic`. -/
def extract_budget (text : List Char) : AttrVal :=
  let budget_str :=
    match firstBudgetMatch text with
    | some m => m.dropLast
    | none => []
  kansuji2arabic budget_str

/-- `AttributeExtractor.extract` (lines 88-92): the three-key attribute
dictionary, modelled as the association list written in source order. -/
def extract (locations : List (List Char))
    (genres : List (List Char × List (List Char))) (text : List Char) :
    List (List Char × AttrVal) :=
  [(str "LOCATION", AttrVal.s (extract_location locations text)),
   (str "GENRE", AttrVal.s (extract_genre genres text)),
   (str "MAXIMUM_AMOUNT", extract_budget text)]

end AttributeExtractor

/-! ### Lemmas about the span-merge loop -/

theorem startsWithChar_I_not_B {l : List Char} (h : startsWithChar 'I' l = true) :
    startsWithChar 'B' l = false := by
  cases l with
  | nil => simp [startsWithChar] at h
  | cons c cs =>
    simp [startsWithChar] at h ⊢
    simp [h]

namespace NamedEntityExtractor

theorem innerRun_nil {α : Type} (sent : List (List Char × α)) (ws ls : List (List Char)) :
    innerRun ([] : List (List Char)) sent ws ls = Except.ok (0, ws, ls) := by
  rw [innerRun.eq_def]

theorem innerRun_not_I {α : Type} (lab : List Char) (rest : List (List Char))
    (sent : List (List Char × α)) (ws ls : List (List Char))
    (h : startsWithChar 'I' lab = false) :
    innerRun (lab :: rest) sent ws ls = Except.ok (0, ws, ls) := by
  rw [innerRun.eq_def]
  simp [h]

theorem innerRun_I_cons {α : Type} (lab : List Char) (rest : List (List Char))
    (tok : List Char × α) (sentRest : List (List Char × α)) (ws ls : List (List Char))
    (h : startsWithChar 'I' lab = true) :
    innerRun (lab :: rest) (tok :: sentRest) ws ls
      = match innerRun rest sentRest [tok.fst] [lab] with
        | Except.error e => Except.error e
        | Except.ok (k, ws2, ls2) => Except.ok (k + 1, ws2, ls2) := by
  rw [innerRun.eq_def]
  simp [h]

theorem innerRun_I_oob {α : Type} (lab : List Char) (rest : List (List Char))
    (ws ls : List (List Char)) (h : startsWithChar 'I' lab = true) :
    innerRun (lab :: rest) ([] : List (List Char × α)) ws ls
      = Except.error PyErr.indexErrorSent := by
  rw [innerRun.eq_def]
  simp [h]

theorem innerRun_consume {α : Type} (ilabs : List (List Char)) (ilast : List Char)
    (rest : List (List Char)) (itoks : List (List Char × α)) (ltok : List Char × α)
    (rtoks : List (List Char × α)) (ws ls : List (List Char))
    (hlen : itoks.length = ilabs.length)
    (hI : ∀ l ∈ ilabs, startsWithChar 'I' l = true)
    (hIl : startsWithChar 'I' ilast = true)
    (hnext : startsWithChar 'I' (rest.headD []) = false) :
    innerRun (ilabs ++ ilast :: rest) (itoks ++ ltok :: rtoks) ws ls
      = Except.ok (ilabs.length + 1, [ltok.fst], [ilast]) := by
  induction ilabs generalizing itoks ws ls with
  | nil =>
    have hit : itoks = [] := List.length_eq_zero.mp hlen
    subst hit
    simp only [List.nil_append]
    rw [innerRun_I_cons ilast rest ltok rtoks ws ls hIl]
    have hrest : innerRun rest rtoks [ltok.fst] [ilast]
        = Except.ok (0, [ltok.fst], [ilast]) := by
      cases rest with
      | nil => exact innerRun_nil rtoks [ltok.fst] [ilast]
      | cons r rs =>
        simp only [List.headD_cons] at hnext
        exact innerRun_not_I r rs rtoks [ltok.fst] [ilast] hnext
    rw [hrest]
    rfl
  | cons l ls' ih =>
    cases itoks with
    | nil => simp at hlen
    | cons t ts' =>
      simp only [List.length_cons, Nat.succ_inj] at hlen
      simp only [List.cons_append]
      have hl : startsWithChar 'I' l = true := hI l (List.mem_cons_self l ls')
      rw [innerRun_I_cons l (ls' ++ ilast :: rest) t (ts' ++ ltok :: rtoks) ws ls hl]
      rw [ih ts' [t.fst] [l] hlen (fun x hx => hI x (List.mem_cons_of_mem l hx))]
      simp [Nat.add_comm, Nat.add_assoc]

theorem innerRun_ok_spec {α : Type} :
    ∀ (pred : List (List Char)) (sent : List (List Char × α)) (ws ls : List (List Char))
      (k : Nat) (ws' ls' : List (List Char)),
      innerRun pred sent ws ls = Except.ok (k, ws', ls') →
      k ≤ pred.length ∧ ∀ l ∈ pred.take k, startsWithChar 'I' l = true
  | [], sent, ws, ls, k, ws', ls' => by
    rw [innerRun_nil]
    intro h
    injection h with h
    injection h with h1 h2
    subst h1
    simp
  | lab :: rest, sent, ws, ls, k, ws', ls' => by
    by_cases hlab : startsWithChar 'I' lab = true
    · cases sent with
      | nil =>
        rw [innerRun_I_oob lab rest ws ls hlab]
        intro h
        exact absurd h (by simp)
      | cons tok sentRest =>
        rw [innerRun_I_cons lab rest tok sentRest ws ls hlab]
        cases hrec : innerRun rest sentRest [tok.fst] [lab] with
        | error e => intro h; exact absurd h (by simp)
        | ok kwl =>
          obtain ⟨k0, ws0, ls0⟩ := kwl
          intro h
          injection h with h
          injection h with h1 h2
          obtain ⟨hk, hall⟩ := innerRun_ok_spec rest sentRest [tok.fst] [lab] k0 ws0 ls0 hrec
          subst h1
          constructor
          · simpa using Nat.succ_le_succ hk
          · intro l hl
            simp only [List.take_succ_cons, List.mem_cons] at hl
            rcases hl with rfl | hl
            · exact hlab
            · exact hall l hl
    · simp only [Bool.not_eq_true] at hlab
      rw [innerRun_not_I lab rest sent ws ls hlab]
      intro h
      injection h with h
      injection h with h1 h2
      subst h1
      simp

theorem innerRun_total_of_le {α : Type} :
    ∀ (pred : List (List Char)) (sent : List (List Char × α)) (ws ls : List (List Char)),
      pred.length ≤ sent.length →
      ∃ k ws' ls', innerRun pred sent ws ls = Except.ok (k, ws', ls')
  | [], sent, ws, ls, _ => ⟨0, ws, ls, innerRun_nil sent ws ls⟩
  | lab :: rest, sent, ws, ls, hle => by
    by_cases hlab : startsWithChar 'I' lab = true
    · cases sent with
      | nil => simp at hle
      | cons tok sentRest =>
        simp only [List.length_cons, Nat.succ_le_succ_iff] at hle
        obtain ⟨k, ws', ls', h⟩ :=
          innerRun_total_of_le rest sentRest [tok.fst] [lab] hle
        refine ⟨k + 1, ws', ls', ?_⟩
        rw [innerRun_I_cons lab rest tok sentRest ws ls hlab, h]
    · simp only [Bool.not_eq_true] at hlab
      exact ⟨0, ws, ls, innerRun_not_I lab rest sent ws ls hlab⟩

theorem outerRun_nil {α : Type} (sent : List (List Char × α))
    (res : List (List Char × List Char)) :
    outerRun ([] : List (List Char)) sent res = Except.ok res := by
  rw [outerRun.eq_def]

theorem outerRun_not_B {α : Type} (lab : List Char) (rest : List (List Char))
    (sent : List (List Char × α)) (res : List (List Char × List Char))
    (h : startsWithChar 'B' lab = false) :
    outerRun (lab :: rest) sent res = outerRun rest (sent.drop 1) res := by
  rw [outerRun.eq_def]
  simp [h]

theorem outerRun_B_oob {α : Type} (lab : List Char) (rest : List (List Char))
    (res : List (List Char × List Char)) (h : startsWithChar 'B' lab = true) :
    outerRun (lab :: rest) ([] : List (List Char × α)) res
      = Except.error PyErr.indexErrorSent := by
  rw [outerRun.eq_def]
  simp [h]

theorem outerRun_B_cons {α : Type} (lab : List Char) (rest : List (List Char))
    (tok : List Char × α) (sentRest : List (List Char × α))
    (res : List (List Char × List Char)) (h : startsWithChar 'B' lab = true) :
    outerRun (lab :: rest) (tok :: sentRest) res
      = match innerRun rest sentRest [tok.fst] [lab] with
        | Except.error e => Except.error e
        | Except.ok (k, word_stack, label_stack) =>
          match mapSplitSnd label_stack with
          | Except.error e => Except.error e
          | Except.ok ts =>
            outerRun (rest.drop k) (sentRest.drop k)
              (res ++ [(ts.dedup.flatten, word_stack.flatten)]) := by
  rw [outerRun.eq_def]
  simp [h]

theorem outerRun_no_B {α : Type} :
    ∀ (pred : List (List Char)) (sent : List (List Char × α))
      (res : List (List Char × List Char)),
      (∀ l ∈ pred, startsWithChar 'B' l = false) →
      outerRun pred sent res = Except.ok res
  | [], sent, res, _ => outerRun_nil sent res
  | lab :: rest, sent, res, h => by
    rw [outerRun_not_B lab rest sent res (h lab (List.mem_cons_self lab rest))]
    exact outerRun_no_B rest (sent.drop 1) res
      (fun l hl => h l (List.mem_cons_of_mem lab hl))

theorem mapSplitSnd_error {e : PyErr} :
    ∀ (ls : List (List Char)), mapSplitSnd ls = Except.error e →
      e = PyErr.indexErrorSplit
  | [], h => by simp [mapSplitSnd] at h
  | l :: ls, h => by
    rw [mapSplitSnd] at h
    cases hs : splitSnd l with
    | error e2 =>
      rw [hs] at h
      have : e2 = PyErr.indexErrorSplit := by
        unfold splitSnd at hs
        cases hg : (splitOnDash l).get? 1 with
        | some t => rw [hg] at hs; exact absurd hs (by simp)
        | none => rw [hg] at hs; injection hs with hs; exact hs.symm
      injection h with h
      rw [← h, this]
    | ok t =>
      rw [hs] at h
      cases hm : mapSplitSnd ls with
      | error e2 =>
        rw [hm] at h
        injection h with h
        rw [← h]
        exact mapSplitSnd_error ls hm
      | ok ts => rw [hm] at h; exact absurd h (by simp)

theorem outerRun_count {α : Type} :
    ∀ (n : Nat) (pred : List (List Char)) (sent : List (List Char × α))
      (res out : List (List Char × List Char)),
      pred.length ≤ n → outerRun pred sent res = Except.ok out →
      out.length = res.length + pred.countP (fun l => startsWithChar 'B' l)
  | n, [], sent, res, out, _, h => by
    rw [outerRun_nil] at h
    injection h with h
    subst h
    simp
  | 0, lab :: rest, sent, res, out, hn, h => by simp at hn
  | n + 1, lab :: rest, sent, res, out, hn, h => by
    simp only [List.length_cons, Nat.succ_le_succ_iff] at hn
    by_cases hlab : startsWithChar 'B' lab = true
    · cases sent with
      | nil =>
        rw [outerRun_B_oob lab rest res hlab] at h
        exact absurd h (by simp)
      | cons tok sentRest =>
        rw [outerRun_B_cons lab rest tok sentRest res hlab] at h
        cases hrec : innerRun rest sentRest [tok.fst] [lab] with
        | error e => simp [hrec] at h
        | ok kwl =>
          obtain ⟨k, ws, ls⟩ := kwl
          cases hm : mapSplitSnd ls with
          | error e => simp [hrec, hm] at h
          | ok ts =>
            simp only [hrec, hm] at h
            obtain ⟨hk, htake⟩ := innerRun_ok_spec rest sentRest [tok.fst] [lab] k ws ls hrec
            have hlen : (rest.drop k).length ≤ n := by
              simp only [List.length_drop]
              omega
            have hout := outerRun_count n (rest.drop k) (sentRest.drop k)
              (res ++ [(ts.dedup.flatten, ws.flatten)]) out hlen h
            have hsplit : rest.countP (fun l => startsWithChar 'B' l)
                = (rest.take k).countP (fun l => startsWithChar 'B' l)
                  + (rest.drop k).countP (fun l => startsWithChar 'B' l) := by
              conv_lhs => rw [← List.take_append_drop k rest]
              rw [List.countP_append]
            have htake0 : (rest.take k).countP (fun l => startsWithChar 'B' l) = 0 := by
              rw [List.countP_eq_zero]
              intro l hl
              simp [startsWithChar_I_not_B (htake l hl)]
            have hgoal : (lab :: rest).countP (fun l => startsWithChar 'B' l)
                = rest.countP (fun l => startsWithChar 'B' l) + 1 := by
              simp [List.countP_cons, hlab]
            rw [hgoal, hsplit, htake0]
            simp only [List.length_append, List.length_cons, List.length_nil] at hout
            omega
    · simp only [Bool.not_eq_true] at hlab
      rw [outerRun_not_B lab rest sent res hlab] at h
      have hrec := outerRun_count n rest (sent.drop 1) res out hn h
      have hgoal : (lab :: rest).countP (fun l => startsWithChar 'B' l)
          = rest.countP (fun l => startsWithChar 'B' l) := by
        simp [List.countP_cons, hlab]
      rw [hgoal]
      exact hrec

theorem outerRun_ne_sentOOB {α : Type} :
    ∀ (n : Nat) (pred : List (List Char)) (sent : List (List Char × α))
      (res : List (List Char × List Char)),
      pred.length ≤ n → pred.length ≤ sent.length →
      outerRun pred sent res ≠ Except.error PyErr.indexErrorSent
  | n, [], sent, res, _, _ => by
    rw [outerRun_nil]
    simp
  | 0, lab :: rest, sent, res, hn, _ => by simp at hn
  | n + 1, lab :: rest, sent, res, hn, hle => by
    simp only [List.length_cons, Nat.succ_le_succ_iff] at hn
    by_cases hlab : startsWithChar 'B' lab = true
    · cases sent with
      | nil => simp at hle
      | cons tok sentRest =>
        simp only [List.length_cons, Nat.succ_le_succ_iff] at hle
        rw [outerRun_B_cons lab rest tok sentRest res hlab]
        obtain ⟨k, ws, ls, hrec⟩ := innerRun_total_of_le rest sentRest [tok.fst] [lab] hle
        cases hm : mapSplitSnd ls with
        | error e =>
          have he := mapSplitSnd_error ls hm
          subst he
          simp [hrec, hm]
        | ok ts =>
          simp only [hrec, hm]
          have hdroplen : (rest.drop k).length ≤ n := by
            simp only [List.length_drop]
            omega
          have hdrople : (rest.drop k).length ≤ (sentRest.drop k).length := by
            simp only [List.length_drop]
            omega
          exact outerRun_ne_sentOOB n (rest.drop k) (sentRest.drop k)
            (res ++ [(ts.dedup.flatten, ws.flatten)]) hdroplen hdrople
    · simp only [Bool.not_eq_true] at hlab
      rw [outerRun_not_B lab rest sent res hlab]
      cases sent with
      | nil => simp at hle
      | cons tok sentRest =>
        simp only [List.length_cons, Nat.succ_le_succ_iff] at hle
        exact outerRun_ne_sentOOB n rest ((tok :: sentRest).drop 1) res hn
          (by simpa using hle)

theorem outerRun_acc_append {α : Type} :
    ∀ (n : Nat) (pred : List (List Char)) (sent : List (List Char × α))
      (acc : List (List Char × List Char)), pred.length ≤ n →
      outerRun pred sent acc
        = Except.map (fun tail => acc ++ tail) (outerRun pred sent [])
  | n, [], sent, acc, _ => by
    rw [outerRun_nil, outerRun_nil]
    simp [Except.map]
  | 0, lab :: rest, sent, acc, hn => by simp at hn
  | n + 1, lab :: rest, sent, acc, hn => by
    simp only [List.length_cons, Nat.succ_le_succ_iff] at hn
    by_cases hlab : startsWithChar 'B' lab = true
    · cases sent with
      | nil =>
        rw [outerRun_B_oob lab rest acc hlab, outerRun_B_oob lab rest [] hlab]
        rfl
      | cons tok sentRest =>
        rw [outerRun_B_cons lab rest tok sentRest acc hlab,
          outerRun_B_cons lab rest tok sentRest [] hlab]
        cases hrec : innerRun rest sentRest [tok.fst] [lab] with
        | error e => rfl
        | ok kwl =>
          obtain ⟨k, ws, ls⟩ := kwl
          cases hm : mapSplitSnd ls with
          | error e =>
            simp only [hm]
            rfl
          | ok ts =>
            simp only [hm, List.nil_append]
            have hlen : (rest.drop k).length ≤ n := by
              simp only [List.length_drop]
              omega
            rw [outerRun_acc_append n (rest.drop k) (sentRest.drop k)
                (acc ++ [(ts.dedup.flatten, ws.flatten)]) hlen,
              outerRun_acc_append n (rest.drop k) (sentRest.drop k)
                [(ts.dedup.flatten, ws.flatten)] hlen]
            cases outerRun (rest.drop k) (sentRest.drop k) [] with
            | error e => rfl
            | ok tail => simp [Except.map]
    · simp only [Bool.not_eq_true] at hlab
      rw [outerRun_not_B lab rest sent acc hlab, outerRun_not_B lab rest sent [] hlab]
      exact outerRun_acc_append n rest (sent.drop 1) acc hn

theorem outerRun_B_run_step {α : Type} (blab ilast : List Char)
    (ilabs rest : List (List Char)) (tok0 ltok : List Char × α)
    (itoks rtoks : List (List Char × α)) (t : List Char)
    (acc : List (List Char × List Char))
    (hB : startsWithChar 'B' blab = true)
    (hI : ∀ l ∈ ilabs, startsWithChar 'I' l = true)
    (hIl : startsWithChar 'I' ilast = true)
    (hnext : startsWithChar 'I' (rest.headD []) = false)
    (hlen : itoks.length = ilabs.length)
    (hsplit : splitSnd ilast = Except.ok t) :
    outerRun (blab :: (ilabs ++ ilast :: rest)) (tok0 :: (itoks ++ ltok :: rtoks)) acc
      = outerRun rest rtoks (acc ++ [(t, ltok.fst)]) := by
  rw [outerRun_B_cons _ _ _ _ _ hB]
  rw [innerRun_consume ilabs ilast rest itoks ltok rtoks [tok0.fst] [blab]
    hlen hI hIl hnext]
  have hmap : mapSplitSnd [ilast] = Except.ok [t] := by
    rw [mapSplitSnd, hsplit, mapSplitSnd]
  simp only [hmap]
  have hd1 : (ilabs ++ ilast :: rest).drop (ilabs.length + 1) = rest := by
    rw [show ilabs ++ ilast :: rest = (ilabs ++ [ilast]) ++ rest by simp]
    rw [List.drop_left']
    simp
  have hd2 : (itoks ++ ltok :: rtoks).drop (ilabs.length + 1) = rtoks := by
    rw [show itoks ++ ltok :: rtoks = (itoks ++ [ltok]) ++ rtoks by simp]
    rw [List.drop_left']
    simp [hlen]
  rw [hd1, hd2]
  simp

end NamedEntityExtractor

/-! ### Claim theorems about the span-merge loop -/

/-- C1: when the span-merge loop of `extract` meets a label starting with `'B'`
followed by one or more labels starting with `'I'`, the emitted span carries
only the surface form of the LAST token of the run and the TYPE of the last
label of the run, and the scan continues after the run; in particular
`B-LOC, I-LOC, O` over `千葉, 県, です` yields exactly `[["LOC", "県"]]`. -/
theorem mergeSpans_last_token_wins :
    (∀ (α : Type) (blab ilast : List Char) (ilabs rest : List (List Char))
      (tok0 ltok : List Char × α) (itoks rtoks : List (List Char × α)) (t : List Char),
      startsWithChar 'B' blab = true →
      (∀ l ∈ ilabs, startsWithChar 'I' l = true) →
      startsWithChar 'I' ilast = true →
      startsWithChar 'I' (rest.headD []) = false →
      itoks.length = ilabs.length →
      splitSnd ilast = Except.ok t →
      NamedEntityExtractor.mergeSpans (blab :: (ilabs ++ ilast :: rest))
          (tok0 :: (itoks ++ ltok :: rtoks))
        = NamedEntityExtractor.outerRun rest rtoks [(t, ltok.fst)]) ∧
    NamedEntityExtractor.mergeSpans [str "B-LOC", str "I-LOC", str "O"]
        [(str "千葉", ()), (str "県", ()), (str "です", ())]
      = Except.ok [(str "LOC", str "県")] := by
  constructor
  · intro α blab ilast ilabs rest tok0 ltok itoks rtoks t hB hI hIl hnext hlen hsplit
    unfold NamedEntityExtractor.mergeSpans
    rw [NamedEntityExtractor.outerRun_B_cons _ _ _ _ _ hB]
    rw [NamedEntityExtractor.innerRun_consume ilabs ilast rest itoks ltok rtoks
      [tok0.fst] [blab] hlen hI hIl hnext]
    have hmap : mapSplitSnd [ilast] = Except.ok [t] := by
      rw [mapSplitSnd, hsplit, mapSplitSnd]
    simp only [hmap]
    have hd1 : (ilabs ++ ilast :: rest).drop (ilabs.length + 1) = rest := by
      rw [show ilabs ++ ilast :: rest = (ilabs ++ [ilast]) ++ rest by simp]
      rw [List.drop_left']
      simp
    have hd2 : (itoks ++ ltok :: rtoks).drop (ilabs.length + 1) = rtoks := by
      rw [show itoks ++ ltok :: rtoks = (itoks ++ [ltok]) ++ rtoks by simp]
      rw [List.drop_left']
      simp [hlen]
    rw [hd1, hd2]
    simp
  · simp [NamedEntityExtractor.mergeSpans, NamedEntityExtractor.outerRun,
      NamedEntityExtractor.innerRun, mapSplitSnd, splitSnd, splitOnDash,
      startsWithChar, str]

/-- C1 witness: the general statement instantiated at the labels
`B-LOC, I-LOC, O` aligned to tokens `千葉, 県, です`. -/
theorem mergeSpans_last_token_wins_witness :
    startsWithChar 'B' (str "B-LOC") = true ∧
    NamedEntityExtractor.mergeSpans [str "B-LOC", str "I-LOC", str "O"]
        [(str "千葉", ()), (str "県", ()), (str "です", ())]
      = NamedEntityExtractor.outerRun [str "O"] [(str "です", ())]
          [(str "LOC", str "県")] :=
  ⟨by decide,
    mergeSpans_last_token_wins.1 Unit (str "B-LOC") (str "I-LOC") [] [str "O"]
      (str "千葉", ()) (str "県", ()) [] [(str "です", ())] (str "LOC")
      (by decide) (by decide) (by decide) (by decide) (by decide) rfl⟩

/-- C2: the span-merge loop emits exactly one `[TYPE, text]` pair per label
beginning with `'B'`, in left-to-right text order: spans are only ever appended
after previously emitted ones (the accumulator equation), and the span of the
first B-run is the head of the result, with the tail produced by the remaining
suffix of the scan (the cons-step equation).  A label sequence of only `'O'`
yields the empty result; `B-GENRE` over `ラーメン` yields exactly
`[["GENRE", "ラーメン"]]`, and `B-LOC, O, B-GENRE` yields the LOC span before
the GENRE span. -/
theorem mergeSpans_one_pair_per_B :
    (∀ (α : Type) (pred : List (List Char)) (sent : List (List Char × α))
      (res : List (List Char × List Char)),
      NamedEntityExtractor.mergeSpans pred sent = Except.ok res →
      res.length = pred.countP (fun l => startsWithChar 'B' l)) ∧
    (∀ (α : Type) (pred : List (List Char)) (sent : List (List Char × α)),
      (∀ l ∈ pred, l = str "O") →
      NamedEntityExtractor.mergeSpans pred sent = Except.ok []) ∧
    (∀ (α : Type) (pred : List (List Char)) (sent : List (List Char × α))
      (acc : List (List Char × List Char)),
      NamedEntityExtractor.outerRun pred sent acc
        = Except.map (fun tail => acc ++ tail)
            (NamedEntityExtractor.outerRun pred sent [])) ∧
    (∀ (α : Type) (blab : List Char) (irun rest : List (List Char))
      (tok0 : List Char × α) (itoks rtoks : List (List Char × α)) (t : List Char),
      startsWithChar 'B' blab = true →
      (∀ l ∈ irun, startsWithChar 'I' l = true) →
      startsWithChar 'I' (rest.headD []) = false →
      itoks.length = irun.length →
      splitSnd (irun.getLastD blab) = Except.ok t →
      NamedEntityExtractor.mergeSpans (blab :: (irun ++ rest))
          (tok0 :: (itoks ++ rtoks))
        = Except.map (fun tail => (t, (itoks.getLastD tok0).fst) :: tail)
            (NamedEntityExtractor.mergeSpans rest rtoks)) ∧
    NamedEntityExtractor.mergeSpans [str "B-GENRE"] [(str "ラーメン", ())]
      = Except.ok [(str "GENRE", str "ラーメン")] ∧
    NamedEntityExtractor.mergeSpans [str "B-LOC", str "O", str "B-GENRE"]
      [(str "千葉", ()), (str "で", ()), (str "ラーメン", ())]
      = Except.ok [(str "LOC", str "千葉"), (str "GENRE", str "ラーメン")] := by
  refine ⟨?_, ?_, ?_, ?_, ?_, ?_⟩
  · intro α pred sent res h
    have := NamedEntityExtractor.outerRun_count pred.length pred sent [] res
      (le_refl _) h
    simpa using this
  · intro α pred sent h
    apply NamedEntityExtractor.outerRun_no_B
    intro l hl
    rw [h l hl]
    decide
  · intro α pred sent acc
    exact NamedEntityExtractor.outerRun_acc_append pred.length pred sent acc
      (le_refl _)
  · intro α blab irun rest tok0 itoks rtoks t hB hIall hnext hlen hsplit
    unfold NamedEntityExtractor.mergeSpans
    rcases List.eq_nil_or_concat irun with hnil | ⟨ilabs, ilast, hconcat⟩
    · subst hnil
      have hitoks : itoks = [] := List.length_eq_zero.mp (by simpa using hlen)
      subst hitoks
      simp only [List.nil_append, List.getLastD_nil] at hsplit ⊢
      rw [NamedEntityExtractor.outerRun_B_cons _ _ _ _ _ hB]
      have hinner : NamedEntityExtractor.innerRun rest rtoks [tok0.fst] [blab]
          = Except.ok (0, [tok0.fst], [blab]) := by
        cases rest with
        | nil => exact NamedEntityExtractor.innerRun_nil _ _ _
        | cons r rs =>
          exact NamedEntityExtractor.innerRun_not_I r rs rtoks _ _
            (by simpa using hnext)
      have hmap : mapSplitSnd [blab] = Except.ok [t] := by
        rw [mapSplitSnd, hsplit, mapSplitSnd]
      simp only [hinner, hmap, List.drop_zero, List.nil_append]
      rw [show ([t].dedup.flatten, [tok0.fst].flatten) = (t, tok0.fst) by simp]
      rw [NamedEntityExtractor.outerRun_acc_append rest.length rest rtoks
        [(t, tok0.fst)] (le_refl _)]
      cases NamedEntityExtractor.outerRun rest rtoks [] with
      | error e => rfl
      | ok tail => simp [Except.map]
    · subst hconcat
      simp only [List.concat_eq_append] at hIall hsplit hlen ⊢
      have hlen2 : itoks.length = ilabs.length + 1 := by simpa using hlen
      rcases List.eq_nil_or_concat itoks with rfl | ⟨itoks2, ltok, rfl⟩
      · simp at hlen2
      · simp only [List.concat_eq_append] at hlen2 ⊢
        have hlen3 : itoks2.length = ilabs.length := by simpa using hlen2
        rw [List.getLastD_concat] at hsplit
        have hIl : startsWithChar 'I' ilast = true := hIall ilast (by simp)
        have hIall2 : ∀ l ∈ ilabs, startsWithChar 'I' l = true :=
          fun l hl => hIall l (by simp [hl])
        rw [show (ilabs ++ [ilast]) ++ rest = ilabs ++ ilast :: rest by simp,
          show (itoks2 ++ [ltok]) ++ rtoks = itoks2 ++ ltok :: rtoks by simp,
          List.getLastD_concat]
        rw [NamedEntityExtractor.outerRun_B_run_step blab ilast ilabs rest tok0
          ltok itoks2 rtoks t [] hB hIall2 hIl hnext hlen3 hsplit]
        simp only [List.nil_append]
        rw [NamedEntityExtractor.outerRun_acc_append rest.length rest rtoks
          [(t, ltok.fst)] (le_refl _)]
        cases NamedEntityExtractor.outerRun rest rtoks [] with
        | error e => rfl
        | ok tail => simp [Except.map]
  · simp [NamedEntityExtractor.mergeSpans, NamedEntityExtractor.outerRun,
      NamedEntityExtractor.innerRun, mapSplitSnd, splitSnd, splitOnDash,
      startsWithChar, str]
  · simp [NamedEntityExtractor.mergeSpans, NamedEntityExtractor.outerRun,
      NamedEntityExtractor.innerRun, mapSplitSnd, splitSnd, splitOnDash,
      startsWithChar, str]

/-- C2 witness: the count statement instantiated at `B-LOC, O, B-GENRE`, and
the left-to-right cons-step equation instantiated at the run `B-LOC, I-LOC`
followed by `O`. -/
theorem mergeSpans_one_pair_per_B_witness :
    ([(str "LOC", str "千葉"), (str "GENRE", str "ラーメン")].length
      = List.countP (fun l => startsWithChar 'B' l)
          [str "B-LOC", str "O", str "B-GENRE"]) ∧
    NamedEntityExtractor.mergeSpans [str "B-LOC", str "I-LOC", str "O"]
        [(str "千葉", ()), (str "県", ()), (str "です", ())]
      = Except.map (fun tail => (str "LOC", str "県") :: tail)
          (NamedEntityExtractor.mergeSpans [str "O"] [(str "です", ())]) :=
  ⟨mergeSpans_one_pair_per_B.1 Unit [str "B-LOC", str "O", str "B-GENRE"]
    [(str "千葉", ()), (str "で", ()), (str "ラーメン", ())]
    [(str "LOC", str "千葉"), (str "GENRE", str "ラーメン")]
    (by simp [NamedEntityExtractor.mergeSpans, NamedEntityExtractor.outerRun,
      NamedEntityExtractor.innerRun, mapSplitSnd, splitSnd, splitOnDash,
      startsWithChar, str]),
   mergeSpans_one_pair_per_B.2.2.2.1 Unit (str "B-LOC") [str "I-LOC"] [str "O"]
    (str "千葉", ()) [(str "県", ())] [(str "です", ())] (str "LOC")
    (by decide) (by decide) (by decide) (by decide) rfl⟩

/-- C9: whenever the token sequence is at least as long as the label sequence,
the span-merge loop never reads `sent[i]` out of bounds (and the loop is a
total function, so the scan terminates). -/
theorem mergeSpans_no_sent_oob :
    ∀ (α : Type) (pred : List (List Char)) (sent : List (List Char × α)),
      pred.length ≤ sent.length →
      NamedEntityExtractor.mergeSpans pred sent ≠ Except.error PyErr.indexErrorSent :=
  fun _ pred sent h =>
    NamedEntityExtractor.outerRun_ne_sentOOB pred.length pred sent [] (le_refl _) h

/-- C9 witness: the bound-safety statement at a concrete aligned input. -/
theorem mergeSpans_no_sent_oob_witness :
    ([str "B-LOC", str "I-LOC"] : List (List Char)).length
        ≤ ([(str "千葉", ()), (str "県", ())] : List (List Char × Unit)).length ∧
    NamedEntityExtractor.mergeSpans [str "B-LOC", str "I-LOC"]
        [(str "千葉", ()), (str "県", ())] ≠ Except.error PyErr.indexErrorSent :=
  ⟨by decide,
    mergeSpans_no_sent_oob Unit [str "B-LOC", str "I-LOC"]
      [(str "千葉", ()), (str "県", ())] (by decide)⟩

/-- C10: a label starting with `'I'` reached by the outer scan (an orphaned
I-label, e.g. at position 0 or right after an `'O'` or after a closed run) is
silently skipped: it opens no span, contributes no text, and the scan advances
by one. -/
theorem mergeSpans_orphan_I_skipped :
    (∀ (α : Type) (ilab : List Char) (rest : List (List Char))
      (sent : List (List Char × α)) (acc : List (List Char × List Char)),
      startsWithChar 'I' ilab = true →
      NamedEntityExtractor.outerRun (ilab :: rest) sent acc
        = NamedEntityExtractor.outerRun rest (sent.drop 1) acc) ∧
    (∀ (α : Type) (ilab : List Char) (rest : List (List Char))
      (sent : List (List Char × α)),
      startsWithChar 'I' ilab = true →
      NamedEntityExtractor.mergeSpans (ilab :: rest) sent
        = NamedEntityExtractor.mergeSpans rest (sent.drop 1)) := by
  constructor
  · intro α ilab rest sent acc h
    exact NamedEntityExtractor.outerRun_not_B ilab rest sent acc
      (startsWithChar_I_not_B h)
  · intro α ilab rest sent h
    exact NamedEntityExtractor.outerRun_not_B ilab rest sent []
      (startsWithChar_I_not_B h)

/-- C10 witness: an orphaned `I-LOC` at position 0 is skipped. -/
theorem mergeSpans_orphan_I_skipped_witness :
    startsWithChar 'I' (str "I-LOC") = true ∧
    NamedEntityExtractor.mergeSpans [str "I-LOC"] [(str "千葉", ())]
      = NamedEntityExtractor.mergeSpans ([] : List (List Char))
          (([(str "千葉", ())] : List (List Char × Unit)).drop 1) :=
  ⟨by decide,
    mergeSpans_orphan_I_skipped.2 Unit (str "I-LOC") [] [(str "千葉", ())]
      (by decide)⟩

/-! ### Claim theorems about the rule-based extractors -/

theorem firstBudgetMatch_pos :
    ∀ (text : List Char) (m : List Char), firstBudgetMatch text = some m →
      ∃ i, budgetMatchAt (text.drop i) = some m ∧
        ∀ j < i, budgetMatchAt (text.drop j) = none
  | [], m, h => by simp [firstBudgetMatch] at h
  | c :: cs, m, h => by
    rw [firstBudgetMatch] at h
    cases hb : budgetMatchAt (c :: cs) with
    | some m2 =>
      rw [hb] at h
      injection h with h
      subst h
      exact ⟨0, by simpa using hb, by omega⟩
    | none =>
      rw [hb] at h
      obtain ⟨i, hi, hlt⟩ := firstBudgetMatch_pos cs m h
      refine ⟨i + 1, by simpa using hi, ?_⟩
      intro j hj
      cases j with
      | zero => simpa using hb
      | succ j2 =>
        have : j2 < i := by omega
        simpa using hlt j2 this

/-- C3: the budget extractor returns the empty string (not zero, not an error)
when the regex has no match in the text, and otherwise strips the trailing
`'円'` from the FIRST match (earliest position) and returns what the external
numeral-conversion utility produces on the remaining numeral string. -/
theorem extract_budget_first_match :
    ∀ (text : List Char),
      (firstBudgetMatch text = none →
        AttributeExtractor.extract_budget text = AttrVal.s []) ∧
      (∀ m, firstBudgetMatch text = some m →
        AttributeExtractor.extract_budget text = kansuji2arabic m.dropLast ∧
        ∃ i, budgetMatchAt (text.drop i) = some m ∧
          ∀ j < i, budgetMatchAt (text.drop j) = none) := by
  intro text
  constructor
  · intro h
    simp [AttributeExtractor.extract_budget, h, kansuji2arabic]
  · intro m h
    constructor
    · simp [AttributeExtractor.extract_budget, h]
    · exact firstBudgetMatch_pos text m h

/-- C3 witness: the text `五千円以内で` has first match `五千円`, and the
extractor hands `五千` to the conversion utility (yielding the integer 5000);
the full-width-digit text `５００円以内で` matches too (Python `\d` is
Unicode-wide); a text with no match yields the empty string. -/
theorem extract_budget_first_match_witness :
    firstBudgetMatch (str "五千円以内で") = some (str "五千円") ∧
    (AttributeExtractor.extract_budget (str "五千円以内で")
        = kansuji2arabic (str "五千円").dropLast ∧
      ∃ i, budgetMatchAt ((str "五千円以内で").drop i) = some (str "五千円") ∧
        ∀ j < i, budgetMatchAt ((str "五千円以内で").drop j) = none) ∧
    kansuji2arabic (str "五千円").dropLast = AttrVal.i 5000 ∧
    firstBudgetMatch (str "５００円以内で") = some (str "５００円") ∧
    (AttributeExtractor.extract_budget (str "５００円以内で")
        = kansuji2arabic (str "５００円").dropLast ∧
      ∃ i, budgetMatchAt ((str "５００円以内で").drop i) = some (str "５００円") ∧
        ∀ j < i, budgetMatchAt ((str "５００円以内で").drop j) = none) ∧
    kansuji2arabic (str "５００円").dropLast = AttrVal.i 500 ∧
    firstBudgetMatch (str "こんにちは") = none ∧
    AttributeExtractor.extract_budget (str "こんにちは") = AttrVal.s [] :=
  ⟨rfl, (extract_budget_first_match (str "五千円以内で")).2 (str "五千円") rfl,
    by decide, rfl,
    (extract_budget_first_match (str "５００円以内で")).2 (str "５００円") rfl,
    by decide, rfl, (extract_budget_first_match (str "こんにちは")).1 rfl⟩

/-- C4: the location extractor returns a longest dictionary entry among those
occurring as a substring of the text, the empty string when none occurs, and
on the dictionary `{千葉, 千葉県}` with text `千葉県でラーメン` (in either
enumeration order of the set) it returns `千葉県`. -/
theorem extract_location_longest :
    (∀ (locations : List (List Char)) (text : List Char),
      ((∀ loc ∈ locations, containsSub text loc = false) →
        AttributeExtractor.extract_location locations text = []) ∧
      (∀ loc₀ ∈ locations, containsSub text loc₀ = true →
        AttributeExtractor.extract_location locations text ∈ locations ∧
        containsSub text (AttributeExtractor.extract_location locations text) = true ∧
        ∀ loc ∈ locations, containsSub text loc = true →
          loc.length ≤ (AttributeExtractor.extract_location locations text).length)) ∧
    AttributeExtractor.extract_location [str "千葉", str "千葉県"]
      (str "千葉県でラーメン") = str "千葉県" ∧
    AttributeExtractor.extract_location [str "千葉県", str "千葉"]
      (str "千葉県でラーメン") = str "千葉県" := by
  refine ⟨?_, by decide, by decide⟩
  intro locations text
  haveI htot : IsTotal (List Char) (fun a b : List Char => b.length ≤ a.length) :=
    ⟨fun a b => (Nat.le_total b.length a.length)⟩
  haveI htrans : IsTrans (List Char) (fun a b : List Char => b.length ≤ a.length) :=
    ⟨fun _ _ _ h1 h2 => le_trans h2 h1⟩
  constructor
  · intro h
    have hfil : locations.filter (fun loc => containsSub text loc) = [] := by
      rw [List.filter_eq_nil_iff]
      intro a ha
      simp [h a ha]
    simp only [AttributeExtractor.extract_location]
    rw [hfil]
    rfl
  · intro loc₀ hmem hsub
    have hmem0 : loc₀ ∈ locations.filter (fun loc => containsSub text loc) :=
      List.mem_filter.mpr ⟨hmem, hsub⟩
    cases hs : List.insertionSort (fun a b : List Char => b.length ≤ a.length)
        (locations.filter (fun loc => containsSub text loc)) with
    | nil =>
      rw [← List.mem_insertionSort (fun a b : List Char => b.length ≤ a.length)] at hmem0
      rw [hs] at hmem0
      exact absurd hmem0 (List.not_mem_nil loc₀)
    | cons l t =>
      have hval : AttributeExtractor.extract_location locations text = l := by
        simp only [AttributeExtractor.extract_location]
        rw [hs]
      have hlmem : l ∈ locations.filter (fun loc => containsSub text loc) := by
        rw [← List.mem_insertionSort (fun a b : List Char => b.length ≤ a.length), hs]
        exact List.mem_cons_self l t
      have hl2 := List.mem_filter.mp hlmem
      have hsorted := List.sorted_insertionSort
        (fun a b : List Char => b.length ≤ a.length)
        (locations.filter (fun loc => containsSub text loc))
      rw [hs] at hsorted
      rw [hval]
      refine ⟨hl2.1, hl2.2, ?_⟩
      intro loc hloc hlocsub
      have : loc ∈ l :: t := by
        rw [← hs, List.mem_insertionSort]
        exact List.mem_filter.mpr ⟨hloc, hlocsub⟩
      rcases List.mem_cons.mp this with rfl | hin
      · exact le_refl _
      · exact List.rel_of_sorted_cons hsorted loc hin

/-- C4 witness: the longest-match statement instantiated at the dictionary
`{千葉, 千葉県}` and text `千葉県でラーメン`. -/
theorem extract_location_longest_witness :
    containsSub (str "千葉県でラーメン") (str "千葉") = true ∧
    (AttributeExtractor.extract_location [str "千葉", str "千葉県"]
        (str "千葉県でラーメン") ∈ [str "千葉", str "千葉県"] ∧
      containsSub (str "千葉県でラーメン")
        (AttributeExtractor.extract_location [str "千葉", str "千葉県"]
          (str "千葉県でラーメン")) = true ∧
      ∀ loc ∈ [str "千葉", str "千葉県"],
        containsSub (str "千葉県でラーメン") loc = true →
        loc.length ≤ (AttributeExtractor.extract_location [str "千葉", str "千葉県"]
          (str "千葉県でラーメン")).length) :=
  ⟨by decide,
    (extract_location_longest.1 [str "千葉", str "千葉県"]
      (str "千葉県でラーメン")).2 (str "千葉") (by decide) (by decide)⟩

/-- C5: the genre extractor returns the genre of the first matching food item,
scanning genres in declaration order and their food items inside, the empty
string when nothing matches, and `{ラーメン屋: {ラーメン}}` on
`ラーメンを食べたい` yields `ラーメン屋`. -/
theorem extract_genre_first_match :
    (∀ (genres : List (List Char × List (List Char))) (text : List Char),
      ((∀ p ∈ genres, ∀ f ∈ p.snd, containsSub text f = false) →
        AttributeExtractor.extract_genre genres text = []) ∧
      (∀ (pre post : List (List Char × List (List Char))) (g : List Char)
        (foods : List (List Char)),
        genres = pre ++ (g, foods) :: post →
        (∀ p ∈ pre, ∀ f ∈ p.snd, containsSub text f = false) →
        (∃ f ∈ foods, containsSub text f = true) →
        AttributeExtractor.extract_genre genres text = g)) ∧
    AttributeExtractor.extract_genre [(str "ラーメン屋", [str "ラーメン"])]
      (str "ラーメンを食べたい") = str "ラーメン屋" := by
  refine ⟨?_, by decide⟩
  intro genres text
  constructor
  · intro h
    induction genres with
    | nil => rfl
    | cons p rest ih =>
      obtain ⟨g, fs⟩ := p
      rw [AttributeExtractor.extract_genre]
      have hany : fs.any (fun food => containsSub text food) = false := by
        rw [List.any_eq_false]
        intro f hf
        simp [h (g, fs) (List.mem_cons_self _ _) f hf]
      rw [hany]
      simp only [Bool.false_eq_true, if_false]
      exact ih (fun p hp f hf => h p (List.mem_cons_of_mem _ hp) f hf)
  · intro pre post g foods heq hpre hex
    subst heq
    induction pre with
    | nil =>
      simp only [List.nil_append]
      rw [AttributeExtractor.extract_genre]
      have hany : foods.any (fun food => containsSub text food) = true := by
        rw [List.any_eq_true]
        obtain ⟨f, hf, hsub⟩ := hex
        exact ⟨f, hf, hsub⟩
      rw [hany]
      simp
    | cons p rest ih =>
      obtain ⟨g1, fs1⟩ := p
      simp only [List.cons_append]
      rw [AttributeExtractor.extract_genre]
      have hany : fs1.any (fun food => containsSub text food) = false := by
        rw [List.any_eq_false]
        intro f hf
        simp [hpre (g1, fs1) (List.mem_cons_self _ _) f hf]
      rw [hany]
      simp only [Bool.false_eq_true, if_false]
      exact ih (fun p hp f hf => hpre p (List.mem_cons_of_mem _ hp) f hf)

/-- C5 witness: the first-match statement instantiated at the genre dictionary
`{ラーメン屋: {ラーメン}}` and text `ラーメンを食べたい`. -/
theorem extract_genre_first_match_witness :
    containsSub (str "ラーメンを食べたい") (str "ラーメン") = true ∧
    AttributeExtractor.extract_genre [(str "ラーメン屋", [str "ラーメン"])]
      (str "ラーメンを食べたい") = str "ラーメン屋" :=
  ⟨by decide,
    (extract_genre_first_match.1 [(str "ラーメン屋", [str "ラーメン"])]
      (str "ラーメンを食べたい")).2 [] [] (str "ラーメン屋") [str "ラーメン"]
      rfl (by simp) ⟨str "ラーメン", by decide⟩⟩

/-- C6: `AttributeExtractor.extract` returns a mapping with exactly the keys
LOCATION, GENRE and MAXIMUM_AMOUNT, each bound to the corresponding
sub-extractor applied independently to the same raw text. -/
theorem attribute_extract_three_keys :
    ∀ (locations : List (List Char)) (genres : List (List Char × List (List Char)))
      (text : List Char),
      (AttributeExtractor.extract locations genres text).map Prod.fst
        = [str "LOCATION", str "GENRE", str "MAXIMUM_AMOUNT"] ∧
      (AttributeExtractor.extract locations genres text).lookup (str "LOCATION")
        = some (AttrVal.s (AttributeExtractor.extract_location locations text)) ∧
      (AttributeExtractor.extract locations genres text).lookup (str "GENRE")
        = some (AttrVal.s (AttributeExtractor.extract_genre genres text)) ∧
      (AttributeExtractor.extract locations genres text).lookup (str "MAXIMUM_AMOUNT")
        = some (AttributeExtractor.extract_budget text) :=
  fun _ _ _ => ⟨rfl, rfl, rfl, rfl⟩

/-! ### Lemmas about the label ordering of `evaluate` -/

namespace NamedEntityExtractor

theorem listCharLt_irrefl : ∀ a : List Char, listCharLt a a = false
  | [] => rfl
  | c :: cs => by
    rw [listCharLt]
    rw [if_neg (lt_irrefl c), if_neg (lt_irrefl c)]
    exact listCharLt_irrefl cs

theorem listCharLt_asymm : ∀ a b : List Char,
    listCharLt a b = true → listCharLt b a = false
  | [], [] => by simp [listCharLt]
  | [], _ :: _ => fun _ => by rw [listCharLt]
  | _ :: _, [] => by simp [listCharLt]
  | a :: as, b :: bs => by
    rw [listCharLt, listCharLt]
    by_cases h1 : a < b
    · intro _
      rw [if_neg (lt_asymm h1), if_pos h1]
    · rw [if_neg h1]
      by_cases h2 : b < a
      · rw [if_pos h2]
        intro h
        exact absurd h (by simp)
      · rw [if_neg h2, if_neg h2, if_neg h1]
        exact listCharLt_asymm as bs

theorem listCharLt_eq_of_both_false : ∀ a b : List Char,
    listCharLt a b = false → listCharLt b a = false → a = b
  | [], [] => fun _ _ => rfl
  | [], _ :: _ => by
    intro h _
    rw [listCharLt] at h
    exact absurd h (by simp)
  | _ :: _, [] => by
    intro _ h
    rw [listCharLt] at h
    exact absurd h (by simp)
  | a :: as, b :: bs => by
    intro hab hba
    rw [listCharLt] at hab hba
    by_cases h1 : a < b
    · rw [if_pos h1] at hab
      exact absurd hab (by simp)
    · rw [if_neg h1] at hab
      by_cases h2 : b < a
      · rw [if_pos h2] at hba
        exact absurd hba (by simp)
      · rw [if_neg h2] at hab
        rw [if_neg h2, if_neg h1] at hba
        have hc : a = b := le_antisymm (le_of_not_lt h2) (le_of_not_lt h1)
        rw [hc, listCharLt_eq_of_both_false as bs hab hba]

theorem listCharLt_trans : ∀ a b c : List Char,
    listCharLt a b = true → listCharLt b c = true → listCharLt a c = true
  | [], b, c :: cs, _, _ => by rw [listCharLt]
  | [], b, [], _, h2 => by
    cases b with
    | nil => exact h2
    | cons x xs =>
      rw [listCharLt] at h2
      exact absurd h2 (by simp)
  | a :: as, [], c, h1, _ => by
    rw [listCharLt] at h1
    exact absurd h1 (by simp)
  | a :: as, b :: bs, [], _, h2 => by
    rw [listCharLt] at h2
    exact absurd h2 (by simp)
  | a :: as, b :: bs, c :: cs, h1, h2 => by
    rw [listCharLt] at h1 h2 ⊢
    by_cases hab : a < b
    · by_cases hbc : b < c
      · rw [if_pos (lt_trans hab hbc)]
      · rw [if_neg hbc] at h2
        by_cases hcb : c < b
        · rw [if_pos hcb] at h2
          exact absurd h2 (by simp)
        · have hbc2 : b = c := le_antisymm (le_of_not_lt hcb) (le_of_not_lt hbc)
          rw [← hbc2, if_pos hab]
    · rw [if_neg hab] at h1
      by_cases hba : b < a
      · rw [if_pos hba] at h1
        exact absurd h1 (by simp)
      · rw [if_neg hba] at h1
        have hab2 : a = b := le_antisymm (le_of_not_lt hba) (le_of_not_lt hab)
        subst hab2
        by_cases hbc : a < c
        · rw [if_pos hbc]
        · rw [if_neg hbc] at h2 ⊢
          by_cases hcb : c < a
          · rw [if_pos hcb] at h2
            exact absurd h2 (by simp)
          · rw [if_neg hcb] at h2 ⊢
            exact listCharLt_trans as bs cs h1 h2

theorem keyLt_asymm : ∀ a b : List (List Char), keyLt a b = true → keyLt b a = false
  | [], [] => by simp [keyLt]
  | [], _ :: _ => fun _ => by rw [keyLt]
  | _ :: _, [] => by simp [keyLt]
  | a :: as, b :: bs => by
    intro h
    rw [keyLt] at h ⊢
    by_cases h1 : listCharLt a b = true
    · rw [if_neg (by simp [listCharLt_asymm a b h1]), if_pos h1]
    · rw [if_neg h1] at h
      by_cases h2 : listCharLt b a = true
      · rw [if_pos h2] at h
        exact absurd h (by simp)
      · rw [if_neg h2] at h
        rw [if_neg h2, if_neg h1]
        exact keyLt_asymm as bs h

theorem keyLt_eq_of_both_false : ∀ a b : List (List Char),
    keyLt a b = false → keyLt b a = false → a = b
  | [], [] => fun _ _ => rfl
  | [], _ :: _ => by
    intro h _
    rw [keyLt] at h
    exact absurd h (by simp)
  | _ :: _, [] => by
    intro _ h
    rw [keyLt] at h
    exact absurd h (by simp)
  | a :: as, b :: bs => by
    intro hab hba
    rw [keyLt] at hab hba
    by_cases h1 : listCharLt a b = true
    · rw [if_pos h1] at hab
      exact absurd hab (by simp)
    · rw [if_neg h1] at hab
      by_cases h2 : listCharLt b a = true
      · rw [if_pos h2] at hba
        exact absurd hba (by simp)
      · rw [if_neg h2] at hab
        rw [if_neg h2, if_neg h1] at hba
        have h1f : listCharLt a b = false := by
          revert h1
          cases listCharLt a b <;> simp
        have h2f : listCharLt b a = false := by
          revert h2
          cases listCharLt b a <;> simp
        have hc : a = b := listCharLt_eq_of_both_false a b h1f h2f
        rw [hc, keyLt_eq_of_both_false as bs hab hba]

theorem keyLt_trans : ∀ a b c : List (List Char),
    keyLt a b = true → keyLt b c = true → keyLt a c = true
  | [], b, c :: cs, _, _ => by rw [keyLt]
  | [], b, [], _, h2 => by
    cases b with
    | nil => exact h2
    | cons x xs =>
      rw [keyLt] at h2
      exact absurd h2 (by simp)
  | a :: as, [], c, h1, _ => by
    rw [keyLt] at h1
    exact absurd h1 (by simp)
  | a :: as, b :: bs, [], _, h2 => by
    rw [keyLt] at h2
    exact absurd h2 (by simp)
  | a :: as, b :: bs, c :: cs, h1, h2 => by
    rw [keyLt] at h1 h2 ⊢
    by_cases hab : listCharLt a b = true
    · by_cases hbc : listCharLt b c = true
      · rw [if_pos (listCharLt_trans a b c hab hbc)]
      · rw [if_neg hbc] at h2
        by_cases hcb : listCharLt c b = true
        · rw [if_pos hcb] at h2
          exact absurd h2 (by simp)
        · rw [if_neg hcb] at h2
          have hbcf : listCharLt b c = false := by
            revert hbc
            cases listCharLt b c <;> simp
          have hcbf : listCharLt c b = false := by
            revert hcb
            cases listCharLt c b <;> simp
          have hbceq : b = c := listCharLt_eq_of_both_false b c hbcf hcbf
          subst hbceq
          rw [if_pos hab]
    · rw [if_neg hab] at h1
      by_cases hba : listCharLt b a = true
      · rw [if_pos hba] at h1
        exact absurd h1 (by simp)
      · rw [if_neg hba] at h1
        have habf : listCharLt a b = false := by
          revert hab
          cases listCharLt a b <;> simp
        have hbaf : listCharLt b a = false := by
          revert hba
          cases listCharLt b a <;> simp
        have habeq : a = b := listCharLt_eq_of_both_false a b habf hbaf
        subst habeq
        by_cases hbc : listCharLt a c = true
        · rw [if_pos hbc]
        · rw [if_neg hbc] at h2 ⊢
          by_cases hcb : listCharLt c a = true
          · rw [if_pos hcb] at h2
            exact absurd h2 (by simp)
          · rw [if_neg hcb] at h2 ⊢
            exact keyLt_trans as bs cs h1 h2

theorem tagKeyLe_total : ∀ a b : List Char,
    NamedEntityExtractor.tagKeyLe a b ∨ NamedEntityExtractor.tagKeyLe b a := by
  intro a b
  unfold NamedEntityExtractor.tagKeyLe
  by_cases h : keyLt (NamedEntityExtractor.sortKey b) (NamedEntityExtractor.sortKey a) = true
  · right
    exact keyLt_asymm _ _ h
  · left
    revert h
    cases keyLt (NamedEntityExtractor.sortKey b) (NamedEntityExtractor.sortKey a) <;> simp

theorem tagKeyLe_trans : ∀ a b c : List Char,
    NamedEntityExtractor.tagKeyLe a b → NamedEntityExtractor.tagKeyLe b c →
    NamedEntityExtractor.tagKeyLe a c := by
  intro a b c hab hbc
  unfold NamedEntityExtractor.tagKeyLe at hab hbc ⊢
  cases hca : keyLt (NamedEntityExtractor.sortKey c) (NamedEntityExtractor.sortKey a) with
  | false => rfl
  | true =>
    exfalso
    by_cases hac : keyLt (NamedEntityExtractor.sortKey a) (NamedEntityExtractor.sortKey b) = true
    · have : keyLt (NamedEntityExtractor.sortKey c) (NamedEntityExtractor.sortKey b) = true :=
        keyLt_trans _ _ _ hca hac
      rw [this] at hbc
      exact absurd hbc (by simp)
    · have hacf : keyLt (NamedEntityExtractor.sortKey a) (NamedEntityExtractor.sortKey b)
          = false := by
        revert hac
        cases keyLt (NamedEntityExtractor.sortKey a) (NamedEntityExtractor.sortKey b) <;> simp
      have heq : NamedEntityExtractor.sortKey b = NamedEntityExtractor.sortKey a :=
        keyLt_eq_of_both_false _ _ hab hacf
      rw [← heq] at hca
      rw [hca] at hbc
      exact absurd hbc (by simp)

theorem splitFirstDash_append : ∀ (p t : List Char), '-' ∉ p →
    splitFirstDash (p ++ '-' :: t) = (p, some t)
  | [], t, _ => by simp [splitFirstDash]
  | c :: cs, t, hp => by
    have hc : ¬(c = '-') := fun h => hp (by rw [h]; exact List.mem_cons_self _ _)
    rw [List.cons_append, splitFirstDash, if_neg hc,
      splitFirstDash_append cs t (fun h => hp (List.mem_cons_of_mem _ h))]

theorem sortKey_dash (p t : List Char) (hp : '-' ∉ p) :
    NamedEntityExtractor.sortKey (p ++ '-' :: t) = [t, p] := by
  unfold NamedEntityExtractor.sortKey
  rw [splitFirstDash_append p t hp]

theorem keyLt_single (y2 y1 : List Char) : keyLt [y2] [y1] = listCharLt y2 y1 := by
  rw [keyLt]
  by_cases h2 : listCharLt y2 y1 = true
  · rw [if_pos (by simp [h2]), h2]
  · have h2f : listCharLt y2 y1 = false := by
      revert h2
      cases listCharLt y2 y1 <;> simp
    rw [if_neg (by simp [h2f]), h2f]
    by_cases h1 : listCharLt y1 y2 = true
    · rw [if_pos (by simp [h1])]
    · have h1f : listCharLt y1 y2 = false := by
        revert h1
        cases listCharLt y1 y2 <;> simp
      rw [if_neg (by simp [h1f])]
      rfl

theorem tagKeyLe_pair (p1 t1 p2 t2 : List Char) (hp1 : '-' ∉ p1) (hp2 : '-' ∉ p2) :
    (NamedEntityExtractor.tagKeyLe (p1 ++ '-' :: t1) (p2 ++ '-' :: t2) ↔
      (listCharLt t1 t2 = true ∨ (t1 = t2 ∧ listCharLt p2 p1 = false))) := by
  unfold NamedEntityExtractor.tagKeyLe
  rw [sortKey_dash p1 t1 hp1, sortKey_dash p2 t2 hp2]
  rw [show keyLt [t2, p2] [t1, p1]
      = if listCharLt t2 t1 = true then true
        else if listCharLt t1 t2 = true then false else keyLt [p2] [p1] by rw [keyLt]]
  rw [keyLt_single]
  constructor
  · intro h
    by_cases h21 : listCharLt t2 t1 = true
    · rw [if_pos h21] at h
      exact absurd h (by simp)
    · have h21f : listCharLt t2 t1 = false := by
        revert h21
        cases listCharLt t2 t1 <;> simp
      rw [if_neg (by simp [h21f])] at h
      by_cases h12 : listCharLt t1 t2 = true
      · left
        exact h12
      · have h12f : listCharLt t1 t2 = false := by
          revert h12
          cases listCharLt t1 t2 <;> simp
        rw [if_neg (by simp [h12f])] at h
        right
        exact ⟨listCharLt_eq_of_both_false t1 t2 h12f h21f, h⟩
  · intro h
    rcases h with h12 | ⟨heq, hp⟩
    · rw [if_neg (by simp [listCharLt_asymm t1 t2 h12]), if_pos h12]
    · subst heq
      rw [if_neg (by simp [listCharLt_irrefl t1]), if_neg (by simp [listCharLt_irrefl t1])]
      exact hp

/-- C7: the reported label list of `evaluate` excludes `'O'`, consists exactly
of the labels occurring in the gold collection, and is sorted ascending by the
key `(TYPE after the first dash, then the B/I prefix)` — grouped by entity
type before the B/I distinction. -/
theorem evaluate_tagset_order :
    ∀ (y_true : List (List (List Char))),
      (str "O" ∉ NamedEntityExtractor.evaluateTagset y_true) ∧
      (∀ l, l ∈ NamedEntityExtractor.evaluateTagset y_true ↔
        (l ∈ y_true.flatten ∧ l ≠ str "O")) ∧
      List.Sorted NamedEntityExtractor.tagKeyLe
        (NamedEntityExtractor.evaluateTagset y_true) ∧
      (∀ p1 t1 p2 t2 : List Char, '-' ∉ p1 → '-' ∉ p2 →
        (NamedEntityExtractor.tagKeyLe (p1 ++ '-' :: t1) (p2 ++ '-' :: t2) ↔
          (listCharLt t1 t2 = true ∨ (t1 = t2 ∧ listCharLt p2 p1 = false)))) := by
  intro y_true
  haveI htot : IsTotal (List Char) NamedEntityExtractor.tagKeyLe :=
    ⟨tagKeyLe_total⟩
  haveI htrans : IsTrans (List Char) NamedEntityExtractor.tagKeyLe :=
    ⟨tagKeyLe_trans⟩
  have hmem : ∀ l, l ∈ NamedEntityExtractor.evaluateTagset y_true ↔
      (l ∈ y_true.flatten ∧ l ≠ str "O") := by
    intro l
    unfold NamedEntityExtractor.evaluateTagset
    rw [List.mem_insertionSort, List.mem_filter, List.mem_dedup]
    constructor
    · rintro ⟨hm, hne⟩
      refine ⟨hm, ?_⟩
      simpa using hne
    · rintro ⟨hm, hne⟩
      refine ⟨hm, ?_⟩
      simpa using hne
  refine ⟨?_, hmem, ?_, tagKeyLe_pair⟩
  · intro h
    exact absurd ((hmem (str "O")).mp h).2 (by simp)
  · unfold NamedEntityExtractor.evaluateTagset
    exact List.sorted_insertionSort NamedEntityExtractor.tagKeyLe _

/-- C7 witness: the key order instantiated at the labels `B-GENRE` and
`I-GENRE` (same TYPE, prefixes compared second) over a concrete gold
collection. -/
theorem evaluate_tagset_order_witness :
    ('-' ∉ str "B") ∧
    (NamedEntityExtractor.tagKeyLe (str "B" ++ '-' :: str "GENRE")
        (str "I" ++ '-' :: str "GENRE") ↔
      (listCharLt (str "GENRE") (str "GENRE") = true ∨
        (str "GENRE" = str "GENRE" ∧ listCharLt (str "I") (str "B") = false))) :=
  ⟨by decide,
    (evaluate_tagset_order [[str "B-LOC", str "I-LOC", str "O", str "B-GENRE"]]).2.2.2
      (str "B") (str "GENRE") (str "I") (str "GENRE") (by decide) (by decide)⟩

end NamedEntityExtractor

/-- C8: a missing model file at construction is caught (the constructor
returns normally, logging `Learn`); tagging or extracting before a successful
train fails with the model-not-loaded error of the underlying library; after a
train the tagger works. -/
theorem init_missing_model_file :
    ∀ (onDisk fitted : CrfModel) (xseq : List Feat) (sent : List (List Char × Unit)),
      NamedEntityExtractor.init false onDisk
        = Except.ok { tagger := { model := none }, printed := [str "Learn"] } ∧
      PycrfTagger.tag { model := none } xseq
        = Except.error PyErr.valueErrorModelNotLoaded ∧
      NamedEntityExtractor.extract
          { tagger := { model := none }, printed := [str "Learn"] } xseq sent
        = Except.error PyErr.valueErrorModelNotLoaded ∧
      (NamedEntityExtractor.train
          { tagger := { model := none }, printed := [str "Learn"] } fitted).tagger.tag
          xseq
        = Except.ok (fitted xseq) :=
  fun _ _ _ _ => ⟨rfl, rfl, rfl, rfl⟩
